import Mathlib

/-!
# Shallow embedding of the `git-repos` TUI core

This file embeds the concurrent data-acquisition and event-coordination
core of the `git-repos` terminal dashboard (Rust sources `src/app.rs`,
`src/event.rs`, `src/git_repo.rs`, `src/config.rs`) and proves the
specification's testable properties against it.

Modelling conventions:
* Filesystem paths are lists of components (`Path := List String`); a
  path's `file_name` is its last component and its parent's `file_name`
  the one before.  The Windows-only `\\?\` prefix stripping is a no-op in
  this model.
* Subprocess-backed probes (`read_branch`, `read_remote_status`,
  `read_status`, `get_remote_url`, directory existence) are oracles
  collected in an `Env` record; the pure classification/formatting logic
  of the probes is embedded directly.
* Background execution units are embedded as the (sequential) trace of
  actions they perform; a `tokio::spawn_blocking` join is modelled as
  always succeeding, since the spawned closures return `Result` values
  instead of panicking.
* The persisted cache file is a value (`List CachedRepo`); file I/O is
  assumed to succeed, so `remove_from_cache` always returns `Ok`.
-/

namespace GitRepos

/-- A filesystem path, as a list of components from the root. -/
abbrev Path := List String

/-! ## String helpers (Rust `str` operations used by the core) -/

/-- Rust `str::contains(char)`: the string has the character somewhere. -/
def strContainsChar (s : String) (c : Char) : Bool :=
  s.data.contains c

/-- Rust `str::contains(&str)`: substring containment (by scalar values;
UTF-8 byte order and containment agree with code-point order). -/
def strContainsSub (s pat : String) : Bool :=
  (List.range (s.data.length + 1)).any fun i => pat.data.isPrefixOf (s.data.drop i)

/-- Lexicographic `≤` on character lists by code point; Rust's byte-wise
`str::cmp` on valid UTF-8 induces exactly this order. -/
def charListLe : List Char → List Char → Bool
  | [], _ => true
  | _ :: _, [] => false
  | a :: as, b :: bs =>
      if a.toNat < b.toNat then true
      else if b.toNat < a.toNat then false
      else charListLe as bs

/-- Rust `String::cmp` as a `≤` test (`cmp(a,b) != Greater`). -/
def strLe (a b : String) : Bool :=
  charListLe a.data b.data

/-- Rust `String::pop`: drop the last character (no-op on `""`). -/
def strPop (s : String) : String :=
  ⟨s.data.dropLast⟩

/-- ASCII lowercase of one character.  (Rust `str::to_lowercase` performs
full Unicode lowercasing; the names and queries compared by the core are
modelled over the ASCII fragment, where the two agree.) -/
def charToLower (c : Char) : Char :=
  if 65 ≤ c.toNat ∧ c.toNat ≤ 90 then Char.ofNat (c.toNat + 32) else c

/-- Rust `str::to_lowercase` (ASCII fragment). -/
def strToLower (s : String) : String :=
  ⟨s.data.map charToLower⟩

/-- A stable insertion into a `≤`-sorted list (inserted element goes in
front of elements it ties with). -/
def orderedInsert {α : Type} (le : α → α → Bool) (x : α) : List α → List α
  | [] => [x]
  | y :: ys => if le x y then x :: y :: ys else y :: orderedInsert le x ys

/-- Stable sort by a boolean `≤` test; models Rust's stable
`slice::sort_by`. -/
def sortByLe {α : Type} (le : α → α → Bool) : List α → List α
  | [] => []
  | x :: xs => orderedInsert le x (sortByLe le xs)

/-! ## Repository record (`git_repo.rs`, `struct GitRepo`) -/

/-- Struct `GitRepo` (git_repo.rs): per-repository record owned by the view
controller.  `remoteStatus?`/`status?` are the asynchronously populated
fields (`None` = unloaded sentinel, rendered `"loading..."`). -/
structure GitRepo where
  path : Path
  branch : String
  remoteStatus? : Option String
  status? : Option String
  missing : Bool
  remoteUrl : Option String
  deriving Repr, DecidableEq

/-- Probe / filesystem oracles for the subprocess-backed collaborators and
the on-disk cache file. -/
structure Env where
  /-- `std::path::Path::exists` -/
  exists_ : Path → Bool
  /-- `GitRepo::read_branch` (reads `.git/HEAD`; total, falls back to
  `"unknown"`). -/
  branchOf : Path → String
  /-- `GitRepo::get_remote_url` for a present repo (`git remote get-url
  origin`). -/
  remoteUrlOf : Path → Option String
  /-- Contents of the persisted cache file `repos.yaml`. -/
  cache : List (Path × Option String)

namespace GitRepo

/-- Constructor `GitRepo::new`: branch derived at creation, async fields unloaded. -/
def new (env : Env) (path : Path) : GitRepo :=
  { path := path
    branch := env.branchOf path
    remoteStatus? := none
    status? := none
    missing := false
    remoteUrl := none }

/-- Constructor `GitRepo::new_missing`. -/
def new_missing (path : Path) (remoteUrl : Option String) : GitRepo :=
  { path := path
    branch := ""
    remoteStatus? := none
    status? := none
    missing := true
    remoteUrl := remoteUrl }

/-- Setter `GitRepo::set_missing` as invoked from the delete-complete handler in
`app.rs` (`repo.set_missing(remote_url)`): marks the record missing and
stores the remote URL captured before deletion. -/
def set_missing (r : GitRepo) (remoteUrl : Option String) : GitRepo :=
  { r with missing := true, remoteUrl := remoteUrl }

/-- Setter `GitRepo::set_remote_status`. -/
def set_remote_status (r : GitRepo) (s : String) : GitRepo :=
  { r with remoteStatus? := some s }

/-- Setter `GitRepo::set_status`. -/
def set_status (r : GitRepo) (s : String) : GitRepo :=
  { r with status? := some s }

/-- Accessor `GitRepo::name`: last path component. -/
def name (r : GitRepo) : Option String :=
  r.path.getLast?

/-- Accessor `GitRepo::parent_name`: the parent directory's last component. -/
def parent_name (r : GitRepo) : Option String :=
  r.path.dropLast.getLast?

/-- Accessor `GitRepo::display_short`: `"parent/name"` when both exist. -/
def display_short (r : GitRepo) : String :=
  match r.parent_name, r.name with
  | some parent, some name => parent ++ "/" ++ name
  | none, some name => name
  | _, _ => String.intercalate "/" r.path

/-- Accessor `GitRepo::remote_status` (`"loading..."` sentinel when
unloaded). -/
def remote_status (r : GitRepo) : String :=
  r.remoteStatus?.getD "loading..."

/-- Accessor `GitRepo::status`. -/
def status (r : GitRepo) : String :=
  r.status?.getD "loading..."

/-- Probe `GitRepo::get_remote_url`: cached URL for a missing record, probe
otherwise. -/
def get_remote_url (env : Env) (r : GitRepo) : Option String :=
  if r.missing then r.remoteUrl else env.remoteUrlOf r.path

/-- The pure classification logic of `GitRepo::read_remote_status`:
`hasRemote` is the result of `git remote` producing output, `counts` the
parsed ahead/behind pair when `git rev-list --left-right --count` succeeds
with two numbers. -/
def read_remote_status (hasRemote : Bool) (counts : Option (Int × Int)) : String :=
  if !hasRemote then "local-only"
  else
    match counts with
    | some (ahead, behind) =>
        if ahead == 0 && behind == 0 then "up-to-date"
        else "↑" ++ toString ahead ++ " ↓" ++ toString behind
    | none => "no-tracking"

/-- The pure classification logic of `GitRepo::read_status`: given the
porcelain output's (staged, unstaged) counts when the probe succeeded with
non-empty output. -/
def classify_status (staged unstaged : Nat) : String :=
  if staged = 0 ∧ unstaged > 0 then toString unstaged ++ "M"
  else if staged > 0 ∧ unstaged = 0 then toString staged ++ "S"
  else if staged > 0 ∧ unstaged > 0 then toString staged ++ "S " ++ toString unstaged ++ "M"
  else "dirty"

end GitRepo

/-! ## Sorting (`app.rs`, the three identical `sort_by` closures) -/

/-- The comparator used by every `repos.sort_by` in `app.rs`, as a `≤`
test: present records before missing ones, otherwise case-insensitive
`display_short` order. -/
def repoLe (a b : GitRepo) : Bool :=
  match a.missing, b.missing with
  | false, true => true
  | true, false => false
  | _, _ => strLe (strToLower a.display_short) (strToLower b.display_short)

/-- The call `repos.sort_by(...)` (Rust's stable sort). -/
def sortRepos (l : List GitRepo) : List GitRepo :=
  sortByLe repoLe l

/-! ## View state (`app.rs`, `struct App`) -/

/-- Enum `FilterMode` (app.rs). -/
inductive FilterMode where
  | all
  | needsAttention
  | modified
  | behind
  deriving Repr, DecidableEq

namespace FilterMode

/-- Method `FilterMode::next`. -/
def next : FilterMode → FilterMode
  | .all => .needsAttention
  | .needsAttention => .behind
  | .behind => .modified
  | .modified => .all

/-- Method `FilterMode::previous`. -/
def previous : FilterMode → FilterMode
  | .all => .modified
  | .modified => .behind
  | .behind => .needsAttention
  | .needsAttention => .all

end FilterMode

/-- The mutable fields of `App` relevant to the event-coordination core
(terminal handles and the redraw flag are omitted; `selection` is
`table_state.selected()`). -/
structure AppState where
  repos : List GitRepo
  selection : Option Nat
  shouldQuit : Bool
  selectedRepo : Option Path
  fetchingRepos : List Nat
  cloningRepos : List Nat
  deletingRepos : List Nat
  fetchAnimationFrame : Nat
  filterMode : FilterMode
  searchQuery : String
  searchMode : Bool
  rootPath : Option Path
  deriving Repr, DecidableEq

/-- The per-record search predicate inside `App::filtered_repos`: an empty
query passes; otherwise case-insensitive substring match on name or parent
name. -/
def searchPass (query : String) (r : GitRepo) : Bool :=
  if query.isEmpty then true
  else
    let ql := strToLower query
    let nameMatch := match r.name with
      | some n => strContainsSub (strToLower n) ql
      | none => false
    let parentMatch := match r.parent_name with
      | some p => strContainsSub (strToLower p) ql
      | none => false
    nameMatch || parentMatch

/-- The filter-mode predicate inside `App::filtered_repos`. -/
def modePass (m : FilterMode) (r : GitRepo) : Bool :=
  match m with
  | .all => true
  | .needsAttention =>
      (strContainsChar r.remote_status '↓' || r.remote_status == "no-tracking")
        || (r.status != "clean" && r.status != "loading...")
  | .modified => r.status != "clean" && r.status != "loading..."
  | .behind => strContainsChar r.remote_status '↓'

/-- Method `App::filtered_repos`: indices (into the unfiltered backing list) of
the records passing both the search filter and the filter mode. -/
def filtered_repos (s : AppState) : List Nat :=
  ((s.repos.enum.filter fun p =>
      searchPass s.searchQuery p.2 && modePass s.filterMode p.2).map fun p => p.1)

/-! ## Background messages (`event.rs` `GitDataUpdate`, plus the delete
variants used by `app.rs`) -/

/-- The background-task message type, each variant carrying the index it
was scheduled against.  (The `event.rs` snapshot omits the two delete
variants that `app.rs` constructs and matches on; they are included here
as the handler requires.) -/
inductive GitDataUpdate where
  | remoteStatus (idx : Nat) (s : String)
  | status (idx : Nat) (s : String)
  | fetchProgress (idx : Nat)
  | fetchComplete (idx : Nat)
  | cloneProgress (idx : Nat)
  | cloneComplete (idx : Nat)
  | deleteProgress (idx : Nat)
  | deleteComplete (idx : Nat) (remoteUrl : Option String)
  deriving Repr, DecidableEq

/-- The index carried by a background message. -/
def GitDataUpdate.index : GitDataUpdate → Nat
  | .remoteStatus idx _ => idx
  | .status idx _ => idx
  | .fetchProgress idx => idx
  | .fetchComplete idx => idx
  | .cloneProgress idx => idx
  | .cloneComplete idx => idx
  | .deleteProgress idx => idx
  | .deleteComplete idx _ => idx

/-- A background unit spawned by the controller while handling an event
(`tokio::spawn` calls in `app.rs`). -/
inductive Spawn where
  /-- The probe task spawned by the clone-complete handler: sends a
  remote-status and a status message tagged `idx` for `path`. -/
  | probe (idx : Nat) (path : Path)
  /-- The delete unit spawned by `handle_drop_repo` on a present record. -/
  | delete (idx : Nat) (path : Path) (remoteUrl : Option String)
  /-- The clone unit spawned by `handle_clone_repo`. -/
  | clone (idx : Nat)
  deriving Repr, DecidableEq

/-- Handler `App::handle_event` (app.rs), `TerminalEvent::GitUpdate` arm: folds one
background message into the state, returning the new state and the units
spawned while handling it. -/
def handleGitUpdate (env : Env) (s : AppState) (u : GitDataUpdate) :
    AppState × List Spawn :=
  match u with
  | .remoteStatus idx v =>
      match s.repos[idx]? with
      | some repo => ({ s with repos := s.repos.set idx (repo.set_remote_status v) }, [])
      | none => (s, [])
  | .status idx v =>
      match s.repos[idx]? with
      | some repo => ({ s with repos := s.repos.set idx (repo.set_status v) }, [])
      | none => (s, [])
  | .fetchProgress idx =>
      if s.fetchingRepos.contains idx then (s, [])
      else ({ s with fetchingRepos := s.fetchingRepos ++ [idx] }, [])
  | .fetchComplete idx =>
      ({ s with
          fetchingRepos := s.fetchingRepos.filter (fun i => i ≠ idx)
          fetchAnimationFrame := (s.fetchAnimationFrame + 1) % 10 }, [])
  | .cloneProgress idx =>
      if s.cloningRepos.contains idx then (s, [])
      else ({ s with cloningRepos := s.cloningRepos ++ [idx] }, [])
  | .cloneComplete idx =>
      let cloning := s.cloningRepos.filter (fun i => i ≠ idx)
      match s.repos[idx]? with
      | some repo =>
          let path := repo.path
          -- "Only refresh if the clone was successful (directory exists)"
          if env.exists_ path then
            let repos2 := sortRepos (s.repos.set idx (GitRepo.new env path))
            match repos2.findIdx? (fun r => r.path = path) with
            | some newIdx =>
                ({ s with
                    repos := repos2
                    cloningRepos := cloning
                    selection := some newIdx }, [Spawn.probe newIdx path])
            | none =>
                ({ s with repos := repos2, cloningRepos := cloning }, [])
          else ({ s with cloningRepos := cloning }, [])
      | none => ({ s with cloningRepos := cloning }, [])
  | .deleteProgress idx =>
      if s.deletingRepos.contains idx then (s, [])
      else ({ s with deletingRepos := s.deletingRepos ++ [idx] }, [])
  | .deleteComplete idx remoteUrl =>
      let deleting := s.deletingRepos.filter (fun i => i ≠ idx)
      match s.repos[idx]? with
      | some repo =>
          let repoPath := repo.path
          let repos2 := sortRepos (s.repos.set idx (repo.set_missing remoteUrl))
          let sel := match repos2.findIdx? (fun r => r.path = repoPath) with
            | some newIdx => some newIdx
            | none => s.selection
          ({ s with repos := repos2, deletingRepos := deleting, selection := sel }, [])
      | none => ({ s with deletingRepos := deleting }, [])

/-! ## Key handling (`app.rs`, `TerminalEvent::Key` arm) -/

/-- The key codes the handler distinguishes. -/
inductive KeyCode where
  | esc
  | enter
  | backspace
  | down
  | up
  | char (c : Char)
  | other
  deriving Repr, DecidableEq

/-- Method `App::next`: move selection to the next index within the currently
filtered view, wrapping. -/
def nextSel (s : AppState) : AppState :=
  let filtered := filtered_repos s
  if filtered.isEmpty then s
  else
    let currentSelected := s.selection.getD 0
    let nextPos := match filtered.findIdx? (fun idx => idx = currentSelected) with
      | some pos => if pos ≥ filtered.length - 1 then 0 else pos + 1
      | none => 0
    -- `filtered[next_pos]` is in bounds; the default is never used
    { s with selection := some (filtered.getD nextPos 0) }

/-- Method `App::previous`. -/
def previousSel (s : AppState) : AppState :=
  let filtered := filtered_repos s
  if filtered.isEmpty then s
  else
    let currentSelected := s.selection.getD 0
    let prevPos := match filtered.findIdx? (fun idx => idx = currentSelected) with
      | some 0 => filtered.length - 1
      | none => filtered.length - 1
      | some pos => pos - 1
    { s with selection := some (filtered.getD prevPos 0) }

/-- Function `remove_from_cache` (config.rs): retain every cached entry whose path
differs from the relative path, and rewrite the file.  File I/O is
modelled as succeeding, so the call's `Result` is always `Ok` (it is `Ok`
even when the path was not present). -/
def remove_from_cache (relativePath : Path) (cache : List (Path × Option String)) :
    List (Path × Option String) :=
  cache.filter fun entry => entry.1 ≠ relativePath

/-- Method `App::handle_drop_repo`.  Returns the new state, the new cache-file
contents when the cache was rewritten, and any spawned delete unit. -/
def handle_drop_repo (env : Env) (s : AppState) :
    AppState × Option (List (Path × Option String)) × List Spawn :=
  match s.selection with
  | none => (s, none, [])
  | some selected =>
      match s.repos[selected]? with
      | none => (s, none, [])
      | some repo =>
          if repo.missing then
            -- Missing repo: remove from cache (requires a known root and
            -- the path relative to it; `\\?\` cleaning is a no-op here).
            match s.rootPath with
            | none => (s, none, [])
            | some rootPath =>
                if rootPath.isPrefixOf repo.path then
                  let relativePath := repo.path.drop rootPath.length
                  -- `remove_from_cache(...).is_ok()` holds in this model
                  let newCache := remove_from_cache relativePath env.cache
                  let repos' := s.repos.eraseIdx selected
                  let sel' :=
                    if !repos'.isEmpty then
                      some (if selected ≥ repos'.length then repos'.length - 1 else selected)
                    else none
                  ({ s with repos := repos', selection := sel' }, some newCache, [])
                else (s, none, [])
          else
            -- Present repo: capture URL, mark deleting, spawn delete unit
            let remoteUrl := repo.get_remote_url env
            ({ s with deletingRepos := s.deletingRepos ++ [selected] }, none,
              [Spawn.delete selected repo.path remoteUrl])

/-- Method `App::handle_clone_repo`. -/
def handle_clone_repo (s : AppState) : AppState × List Spawn :=
  match s.selection with
  | none => (s, [])
  | some selected =>
      match s.repos[selected]? with
      | none => (s, [])
      | some repo =>
          if !repo.missing then (s, [])
          else
            ({ s with cloningRepos := s.cloningRepos ++ [selected] },
              [Spawn.clone selected])

/-- Handler `App::handle_event` (app.rs), `TerminalEvent::Key` arm: search-mode
editing and the normal-mode key table.  Returns the new state, the new
cache contents when the cache file was rewritten, and spawned units. -/
def handleKey (env : Env) (s : AppState) (code : KeyCode) (ctrl : Bool) :
    AppState × Option (List (Path × Option String)) × List Spawn :=
  if s.searchMode then
    match code with
    | .esc =>
        ({ s with searchMode := false, searchQuery := "", selection := some 0 }, none, [])
    | .enter => ({ s with searchMode := false }, none, [])
    | .backspace =>
        ({ s with searchQuery := strPop s.searchQuery, selection := some 0 }, none, [])
    | .char c =>
        ({ s with searchQuery := s.searchQuery.push c, selection := some 0 }, none, [])
    | _ => (s, none, [])
  else
    match code with
    | .enter =>
        match s.selection with
        | some selected =>
            match s.repos[selected]? with
            | some repo =>
                ({ s with selectedRepo := some repo.path, shouldQuit := true }, none, [])
            | none => (s, none, [])
        | none => (s, none, [])
    | .down => (nextSel s, none, [])
    | .up => (previousSel s, none, [])
    | .char c =>
        if c = 'q' ∨ c = 'Q' then ({ s with shouldQuit := true }, none, [])
        else if c = 'c' ∧ ctrl then ({ s with shouldQuit := true }, none, [])
        else if c = 'j' then (nextSel s, none, [])
        else if c = 'k' then (previousSel s, none, [])
        else if c = '[' then
          ({ s with filterMode := s.filterMode.previous, selection := some 0 }, none, [])
        else if c = ']' then
          ({ s with filterMode := s.filterMode.next, selection := some 0 }, none, [])
        else if c = '/' then
          ({ s with searchMode := true, searchQuery := "" }, none, [])
        else if c = 'd' ∨ c = 'D' then handle_drop_repo env s
        else if c = 'c' ∨ c = 'C' then
          let (s', sp) := handle_clone_repo s
          (s', none, sp)
        else (s, none, [])
    | _ => (s, none, [])

/-! ## Startup background units (`event.rs`, `EventHandler::new`)

Each per-repository unit is sequential code; it is embedded as the list of
observable actions it performs, in program order. -/

/-- One observable action of a background unit: a blocking probe
completing, a message sent on the channel, or the blocking fetch call. -/
inductive TaskAction where
  | probeRemoteStatus (path : Path)
  | probeStatus (path : Path)
  | fetchCall (path : Path)
  | send (msg : GitDataUpdate)
  deriving Repr, DecidableEq

/-- Results of the blocking calls inside one startup unit:  the two
initial probes, the outcome of `GitRepo::fetch`, and the re-read
remote status after the fetch. -/
structure UnitProbes where
  remoteStatus1 : String
  status1 : String
  fetchResult : Except String Unit
  remoteStatus2 : String

/-- The join of a `tokio::task::spawn_blocking`: it fails only when the
closure panics, and every closure spawned here returns a `Result` value
instead of panicking, so the join is modelled as always succeeding.
`fetch_result.is_ok()` in the source inspects THIS join result, not the
inner `GitRepo::fetch` result. -/
def spawnBlockingJoin {α : Type} (a : α) : Except Unit α := .ok a

/-- The per-repository startup unit spawned by `EventHandler::new`: probe
remote status, probe status, send both messages, then optionally the fetch
phase. -/
def startupUnit (fetchRepos : Bool) (idx : Nat) (path : Path) (p : UnitProbes) :
    List TaskAction :=
  [TaskAction.probeRemoteStatus path, TaskAction.probeStatus path,
   TaskAction.send (.remoteStatus idx p.remoteStatus1),
   TaskAction.send (.status idx p.status1)]
  ++ (if fetchRepos && p.remoteStatus1 != "local-only" && p.remoteStatus1 != "error" then
        [TaskAction.send (.fetchProgress idx), TaskAction.fetchCall path]
        ++ (match spawnBlockingJoin p.fetchResult with
            | .ok _ =>
                [TaskAction.probeRemoteStatus path,
                 TaskAction.send (.remoteStatus idx p.remoteStatus2)]
            | .error _ => [])
        ++ [TaskAction.send (.fetchComplete idx)]
      else [])

/-! ## Sample records, environments and states (used to instantiate the
theorems at concrete inputs) -/

/-- A present, clean, up-to-date record. -/
def repoAlpha : GitRepo :=
  { path := ["home", "alpha"], branch := "main", remoteStatus? := some "up-to-date",
    status? := some "clean", missing := false, remoteUrl := none }

/-- A present record that is two commits behind its upstream. -/
def repoBeta : GitRepo :=
  { path := ["home", "beta"], branch := "main", remoteStatus? := some "↑0 ↓2",
    status? := some "clean", missing := false, remoteUrl := none }

/-- A present record with a dirty working tree. -/
def repoGamma : GitRepo :=
  { path := ["home", "gamma"], branch := "main", remoteStatus? := some "up-to-date",
    status? := some "2M", missing := false, remoteUrl := none }

/-- A cached-only (missing) record. -/
def repoDelta : GitRepo :=
  GitRepo.new_missing ["home", "delta"] (some "https://example.org/delta.git")

/-- A present record that is ahead of its upstream and not behind, its
remote status exactly as `read_remote_status` renders it. -/
def repoAheadOnly : GitRepo :=
  { path := ["home", "epsilon"], branch := "main",
    remoteStatus? := some (GitRepo.read_remote_status true (some (2, 0))),
    status? := some "clean", missing := false, remoteUrl := none }

/-- An environment where every directory exists; the cache file is empty. -/
def envAllExists : Env :=
  { exists_ := fun _ => true, branchOf := fun _ => "main",
    remoteUrlOf := fun _ => none, cache := [] }

/-- An environment where no directory exists. -/
def envNoneExists : Env :=
  { exists_ := fun _ => false, branchOf := fun _ => "main",
    remoteUrlOf := fun _ => none, cache := [] }

/-- A view state over the three present sample records. -/
def baseState : AppState :=
  { repos := [repoAlpha, repoBeta, repoGamma], selection := some 0, shouldQuit := false,
    selectedRepo := none, fetchingRepos := [], cloningRepos := [], deletingRepos := [],
    fetchAnimationFrame := 0, filterMode := .all, searchQuery := "", searchMode := false,
    rootPath := some ["home"] }

/-- A view state whose only record is the missing `repoDelta`, selected;
the root is known and the cache file is empty. -/
def dropStateC6 : AppState :=
  { baseState with repos := [repoDelta], selection := some 0 }

/-- Recognizes a remote-status emission in a unit's trace. -/
def isSendRemoteStatus : TaskAction → Bool
  | .send (.remoteStatus _ _) => true
  | _ => false

/-- Recognizes the completion of the blocking status probe. -/
def isProbeStatus : TaskAction → Bool
  | .probeStatus _ => true
  | _ => false

/-- Recognizes the fetch-progress emission that opens the fetch phase. -/
def isFetchProgressSend : TaskAction → Bool
  | .send (.fetchProgress _) => true
  | _ => false

/-- The property C3 asserts of a unit's trace: the remote-status message
is emitted before the status probe finishes (i.e. without waiting for
both probes). -/
def EmitsRemoteStatusWithoutWaiting (tr : List TaskAction) : Prop :=
  ∃ i j, tr.findIdx? isSendRemoteStatus = some i ∧
    tr.findIdx? isProbeStatus = some j ∧ i < j

/-- Probe results for a startup unit whose fetch succeeds. -/
def probesOk : UnitProbes :=
  { remoteStatus1 := "up-to-date", status1 := "clean",
    fetchResult := .ok (), remoteStatus2 := "up-to-date" }

/-- Probe results for a startup unit whose fetch call itself fails. -/
def probesFetchErr : UnitProbes :=
  { remoteStatus1 := "up-to-date", status1 := "clean",
    fetchResult := .error "network unreachable", remoteStatus2 := "↑0 ↓1" }

/-- A view state with a present record and a missing one that is being
cloned (index 1 in the cloning set and selected). -/
def cloneState : AppState :=
  { baseState with repos := [repoAlpha, repoDelta], cloningRepos := [1], selection := some 1 }

/-- A view state where record 0 (`alpha`) is being deleted while the
selection rests on record 2 (`gamma`). -/
def delStateC1 : AppState :=
  { baseState with selection := some 2, deletingRepos := [0] }

/-! ## Order and sortedness lemmas -/

theorem charListLe_total : ∀ a b : List Char, (charListLe a b || charListLe b a) = true := by
  intro a
  induction a with
  | nil => intro b; simp [charListLe]
  | cons x xs ih =>
      intro b
      cases b with
      | nil => simp [charListLe]
      | cons y ys =>
          simp only [charListLe]
          rcases Nat.lt_trichotomy x.toNat y.toNat with h | h | h
          · simp [h]
          · simp [h, Nat.lt_irrefl, ih ys]
          · simp [h, Nat.lt_asymm h]

theorem charListLe_trans :
    ∀ a b c : List Char, charListLe a b = true → charListLe b c = true →
      charListLe a c = true := by
  intro a
  induction a with
  | nil => intro b c _ _; simp [charListLe]
  | cons x xs ih =>
      intro b c hab hbc
      cases b with
      | nil => simp [charListLe] at hab
      | cons y ys =>
          cases c with
          | nil => simp [charListLe] at hbc
          | cons z zs =>
              simp only [charListLe] at hab hbc ⊢
              rcases Nat.lt_trichotomy x.toNat y.toNat with hxy | hxy | hxy
              · rcases Nat.lt_trichotomy y.toNat z.toNat with hyz | hyz | hyz
                · simp [Nat.lt_trans hxy hyz]
                · simp [hyz ▸ hxy]
                · rw [if_neg (Nat.lt_asymm hyz), if_pos hyz] at hbc
                  exact absurd hbc (by simp)
              · rcases Nat.lt_trichotomy y.toNat z.toNat with hyz | hyz | hyz
                · simp [hxy ▸ hyz]
                · have hxz : x.toNat = z.toNat := hxy.trans hyz
                  simp [hxy, Nat.lt_irrefl, hxz, hyz] at hab hbc ⊢
                  exact ih ys zs hab hbc
                · simp [hyz, Nat.lt_asymm hyz] at hbc
              · simp [hxy, Nat.lt_asymm hxy] at hab

theorem strLe_total (a b : String) : (strLe a b || strLe b a) = true :=
  charListLe_total a.data b.data

theorem strLe_trans {a b c : String} (h1 : strLe a b = true) (h2 : strLe b c = true) :
    strLe a c = true :=
  charListLe_trans a.data b.data c.data h1 h2

theorem repoLe_total (a b : GitRepo) : (repoLe a b || repoLe b a) = true := by
  unfold repoLe
  cases ha : a.missing <;> cases hb : b.missing <;> simp [strLe_total]

theorem repoLe_trans (a b c : GitRepo) (h1 : repoLe a b = true) (h2 : repoLe b c = true) :
    repoLe a c = true := by
  unfold repoLe at h1 h2 ⊢
  cases ha : a.missing <;> cases hb : b.missing <;> cases hc : c.missing <;>
    simp [ha, hb, hc] at h1 h2 ⊢ <;>
    try exact strLe_trans h1 h2

theorem orderedInsert_perm {α : Type} (le : α → α → Bool) (x : α) (l : List α) :
    (orderedInsert le x l).Perm (x :: l) := by
  induction l with
  | nil => simp [orderedInsert]
  | cons y ys ih =>
      simp only [orderedInsert]
      by_cases h : le x y
      · simp [h]
      · rw [if_neg h]
        exact (ih.cons y).trans (List.Perm.swap x y ys)

theorem sortByLe_perm {α : Type} (le : α → α → Bool) (l : List α) :
    (sortByLe le l).Perm l := by
  induction l with
  | nil => simp [sortByLe]
  | cons x xs ih =>
      exact (orderedInsert_perm le x (sortByLe le xs)).trans (ih.cons x)

theorem orderedInsert_pairwise {α : Type} {le : α → α → Bool}
    (total : ∀ a b, (le a b || le b a) = true)
    (htrans : ∀ a b c, le a b = true → le b c = true → le a c = true)
    (x : α) {l : List α} (hl : l.Pairwise fun a b => le a b = true) :
    (orderedInsert le x l).Pairwise fun a b => le a b = true := by
  induction l with
  | nil => simp [orderedInsert]
  | cons y ys ih =>
      rcases List.pairwise_cons.mp hl with ⟨hy, hys⟩
      simp only [orderedInsert]
      by_cases h : le x y
      · rw [if_pos h]
        refine List.pairwise_cons.mpr ⟨?_, hl⟩
        intro a ha
        rcases List.mem_cons.mp ha with rfl | ha
        · exact h
        · exact htrans x y a h (hy a ha)
      · have hyx : le y x = true := by
          have := total x y
          simp [h] at this
          exact this
        rw [if_neg h]
        refine List.pairwise_cons.mpr ⟨?_, ih hys⟩
        intro a ha
        have : a ∈ x :: ys := (orderedInsert_perm le x ys).mem_iff.mp ha
        rcases List.mem_cons.mp this with rfl | ha'
        · exact hyx
        · exact hy a ha'

theorem sortByLe_pairwise {α : Type} {le : α → α → Bool}
    (total : ∀ a b, (le a b || le b a) = true)
    (htrans : ∀ a b c, le a b = true → le b c = true → le a c = true)
    (l : List α) : (sortByLe le l).Pairwise fun a b => le a b = true := by
  induction l with
  | nil => simp [sortByLe]
  | cons x xs ih => exact orderedInsert_pairwise total htrans x ih

/-- The result of every `repos.sort_by` call is pairwise ordered by the
comparator. -/
theorem sortRepos_sorted (l : List GitRepo) :
    (sortRepos l).Pairwise fun a b => repoLe a b = true :=
  sortByLe_pairwise repoLe_total (fun a b c => repoLe_trans a b c) l

/-- Sorting permutes the list (no record is lost or duplicated). -/
theorem sortRepos_perm (l : List GitRepo) : (sortRepos l).Perm l :=
  sortByLe_perm repoLe l

/-- The spec's phrasing of the sort invariant: every non-missing record
precedes every missing one, and records in the same group are in
case-insensitive display-name order. -/
def SortedSpec (l : List GitRepo) : Prop :=
  l.Pairwise fun a b =>
    (a.missing = false ∧ b.missing = true) ∨
      (a.missing = b.missing ∧
        strLe (strToLower a.display_short) (strToLower b.display_short) = true)

theorem repoLe_imp {a b : GitRepo} (h : repoLe a b = true) :
    (a.missing = false ∧ b.missing = true) ∨
      (a.missing = b.missing ∧
        strLe (strToLower a.display_short) (strToLower b.display_short) = true) := by
  unfold repoLe at h
  cases ha : a.missing <;> cases hb : b.missing <;> simp [ha, hb] at h ⊢ <;> exact h

theorem sortRepos_sortedSpec (l : List GitRepo) : SortedSpec (sortRepos l) :=
  (sortRepos_sorted l).imp repoLe_imp

/-! ## `findIdx?` helper lemmas -/

theorem findIdx?_spec {α : Type} (p : α → Bool) :
    ∀ (l : List α) (j : Nat), l.findIdx? p = some j → ∃ a, l[j]? = some a ∧ p a = true := by
  intro l
  induction l with
  | nil => intro j h; simp [List.findIdx?] at h
  | cons x xs ih =>
      intro j h
      rw [List.findIdx?_cons] at h
      by_cases hx : p x
      · simp [hx] at h
        subst h
        exact ⟨x, by simp, hx⟩
      · simp [hx, List.findIdx?_succ] at h
        obtain ⟨i, hi, rfl⟩ := h
        obtain ⟨a, ha, hpa⟩ := ih i hi
        exact ⟨a, by simpa using ha, hpa⟩

theorem findIdx?_isSome_of_mem {α : Type} {p : α → Bool} {l : List α} {a : α}
    (hmem : a ∈ l) (hp : p a = true) : (l.findIdx? p).isSome := by
  rw [List.findIdx?_isSome, List.any_eq_true]
  exact ⟨a, hmem, hp⟩

/-- Membership in `filtered_repos`, characterized by the backing list. -/
theorem mem_filtered_repos {s : AppState} {i : Nat} :
    i ∈ filtered_repos s ↔
      ∃ r, s.repos[i]? = some r ∧ searchPass s.searchQuery r = true ∧
        modePass s.filterMode r = true := by
  unfold filtered_repos
  simp only [List.mem_map, List.mem_filter, Bool.and_eq_true, Prod.exists]
  constructor
  · rintro ⟨a, b, ⟨hmem, hs, hm⟩, rfl⟩
    exact ⟨b, List.mem_enum_iff_getElem?.mp hmem, hs, hm⟩
  · rintro ⟨r, hr, hs, hm⟩
    exact ⟨i, r, ⟨List.mem_enum_iff_getElem?.mpr hr, hs, hm⟩, rfl⟩

theorem mem_set_self {α : Type} {l : List α} {i : Nat} (h : i < l.length) (a : α) :
    a ∈ l.set i a :=
  List.getElem?_mem (List.getElem?_set_self h)

/-- After sorting a list that contains a record with path `p`, the first
index found by path equality exists and holds a record with that path. -/
theorem sortRepos_findIdx_path {l : List GitRepo} {p : Path}
    (hmem : ∃ r ∈ l, r.path = p) :
    ∃ j, (sortRepos l).findIdx? (fun r => r.path = p) = some j ∧
      ∃ r, (sortRepos l)[j]? = some r ∧ r.path = p := by
  obtain ⟨r, hr, hp⟩ := hmem
  have hmem' : r ∈ sortRepos l := (sortRepos_perm l).mem_iff.mpr hr
  have hsome : ((sortRepos l).findIdx? (fun r => r.path = p)).isSome :=
    findIdx?_isSome_of_mem hmem' (decide_eq_true hp)
  obtain ⟨j, hj⟩ := Option.isSome_iff_exists.mp hsome
  obtain ⟨r', hr', hp'⟩ := findIdx?_spec _ _ _ hj
  exact ⟨j, hj, r', hr', of_decide_eq_true hp'⟩

/-- Reduction of the clone-complete handler when the index resolves and
the directory exists. -/
theorem handleGitUpdate_cloneComplete_exists {env : Env} {s : AppState} {idx : Nat}
    {repo : GitRepo} (hg : s.repos[idx]? = some repo)
    (hex : env.exists_ repo.path = true) {newIdx : Nat}
    (hj : (sortRepos (s.repos.set idx (GitRepo.new env repo.path))).findIdx?
        (fun r => r.path = repo.path) = some newIdx) :
    handleGitUpdate env s (.cloneComplete idx) =
      ({ s with
          repos := sortRepos (s.repos.set idx (GitRepo.new env repo.path))
          cloningRepos := s.cloningRepos.filter (fun i => i ≠ idx)
          selection := some newIdx },
        [Spawn.probe newIdx repo.path]) := by
  simp only [handleGitUpdate, hg, hex, if_true, hj]

/-- Reduction of the clone-complete handler when the index resolves but
the directory does not exist. -/
theorem handleGitUpdate_cloneComplete_noDir {env : Env} {s : AppState} {idx : Nat}
    {repo : GitRepo} (hg : s.repos[idx]? = some repo)
    (hex : env.exists_ repo.path = false) :
    handleGitUpdate env s (.cloneComplete idx) =
      ({ s with cloningRepos := s.cloningRepos.filter (fun i => i ≠ idx) }, []) := by
  simp only [handleGitUpdate, hg, hex, Bool.false_eq_true, if_false]

/-- Reduction of the delete-complete handler when the index resolves. -/
theorem handleGitUpdate_deleteComplete_eq {env : Env} {s : AppState} {idx : Nat}
    {url : Option String} {repo : GitRepo} (hg : s.repos[idx]? = some repo)
    {newIdx : Nat}
    (hj : (sortRepos (s.repos.set idx (repo.set_missing url))).findIdx?
        (fun r => r.path = repo.path) = some newIdx) :
    handleGitUpdate env s (.deleteComplete idx url) =
      ({ s with
          repos := sortRepos (s.repos.set idx (repo.set_missing url))
          deletingRepos := s.deletingRepos.filter (fun i => i ≠ idx)
          selection := some newIdx }, []) := by
  simp only [handleGitUpdate, hg, hj]

/-! ## Claim theorems -/

/-- C9: for every fixed record set and search query, the filter-mode
predicates are: needs-attention — remote status contains the behind marker,
or equals `no-tracking`, or the working-tree status is neither `clean` nor
the unloaded sentinel; behind — remote status contains the behind marker;
modified — non-clean, non-unloaded working-tree status; all — every
record; consequently the all filter's result set is a superset of each
other filter's result set. -/
theorem c9_filter_predicates (s : AppState) (r : GitRepo) :
    (modePass .needsAttention r = true ↔
      ((strContainsChar r.remote_status '↓' = true ∨ r.remote_status = "no-tracking")
        ∨ (r.status ≠ "clean" ∧ r.status ≠ "loading..."))) ∧
    (modePass .behind r = true ↔ strContainsChar r.remote_status '↓' = true) ∧
    (modePass .modified r = true ↔ (r.status ≠ "clean" ∧ r.status ≠ "loading...")) ∧
    modePass .all r = true ∧
    (∀ m : FilterMode, filtered_repos { s with filterMode := m } ⊆
      filtered_repos { s with filterMode := .all }) := by
  refine ⟨?_, ?_, ?_, rfl, ?_⟩
  · simp [modePass]
  · simp [modePass]
  · simp [modePass]
  · intro m i hi
    rw [mem_filtered_repos] at hi ⊢
    obtain ⟨r', hr', hs', _⟩ := hi
    exact ⟨r', hr', hs', rfl⟩

/-- C10: an ahead-only record (ahead `a > 0`, behind `0`) is rendered as
the pair `"↑a ↓0"` (the pair form is used whenever the counts are not both
zero), and since the Behind and NeedsAttention predicates only test for
the `'↓'` character, such a record passes both and lands in the Behind
filter's result set. -/
theorem c10_ahead_only_counts_as_behind (a : Int) (ha : 0 < a) (r : GitRepo)
    (hr : r.remoteStatus? = some (GitRepo.read_remote_status true (some (a, 0)))) :
    GitRepo.read_remote_status true (some (a, 0)) = "↑" ++ toString a ++ " ↓" ++ toString (0 : Int) ∧
    (∀ x y : Int, ¬(x = 0 ∧ y = 0) →
      GitRepo.read_remote_status true (some (x, y)) = "↑" ++ toString x ++ " ↓" ++ toString y) ∧
    modePass .behind r = true ∧
    modePass .needsAttention r = true ∧
    (∀ s : AppState, s.filterMode = .behind → s.searchQuery = "" →
      ∀ i, s.repos[i]? = some r → i ∈ filtered_repos s) := by
  have hb : ∀ x y : Int, ¬(x = 0 ∧ y = 0) →
      GitRepo.read_remote_status true (some (x, y)) = "↑" ++ toString x ++ " ↓" ++ toString y := by
    intro x y hxy
    simp only [GitRepo.read_remote_status, Bool.not_true, Bool.false_eq_true, if_false,
      Bool.and_eq_true, beq_iff_eq]
    rw [if_neg]
    simpa using hxy
  have hrender : GitRepo.read_remote_status true (some (a, 0)) =
      "↑" ++ toString a ++ " ↓" ++ toString (0 : Int) :=
    hb a 0 (by rintro ⟨rfl, -⟩; exact absurd ha (lt_irrefl 0))
  have hcontains : strContainsChar r.remote_status '↓' = true := by
    have : r.remote_status = "↑" ++ toString a ++ " ↓" ++ toString (0 : Int) := by
      rw [GitRepo.remote_status, hr, hrender]
      rfl
    rw [this]
    unfold strContainsChar
    refine List.elem_iff.mpr ?_
    simp only [String.data_append]
    refine List.mem_append.mpr (.inl (List.mem_append.mpr (.inr ?_)))
    decide
  refine ⟨hrender, hb, hcontains, ?_, ?_⟩
  · simp only [modePass, Bool.or_eq_true]
    exact .inl (.inl hcontains)
  · intro s hm hq i hi
    rw [mem_filtered_repos]
    refine ⟨r, hi, ?_, ?_⟩
    · rw [hq]; rfl
    · rw [hm]
      exact hcontains

/-- C10 witness: the theorem instantiated at count 2 and a concrete
record. -/
theorem c10_witness :
    modePass .behind repoAheadOnly = true ∧ modePass .needsAttention repoAheadOnly = true := by
  have h := c10_ahead_only_counts_as_behind 2 (by decide) repoAheadOnly rfl
  exact ⟨h.2.2.1, h.2.2.2.1⟩

/-- C7: handling a background message whose carried index no longer
resolves to a record never panics (the handler is a total function whose
result is defined for every input) and never mutates any record: the
repository list is returned unchanged and no unit is spawned. -/
theorem c7_stale_index_harmless (env : Env) (s : AppState) (u : GitDataUpdate)
    (h : s.repos.length ≤ u.index) :
    (handleGitUpdate env s u).1.repos = s.repos ∧ (handleGitUpdate env s u).2 = [] := by
  cases u with
  | remoteStatus idx v =>
      have hn : s.repos[idx]? = none := List.getElem?_eq_none h
      simp [handleGitUpdate, hn]
  | status idx v =>
      have hn : s.repos[idx]? = none := List.getElem?_eq_none h
      simp [handleGitUpdate, hn]
  | fetchProgress idx =>
      simp only [handleGitUpdate]
      split <;> simp
  | fetchComplete idx => simp [handleGitUpdate]
  | cloneProgress idx =>
      simp only [handleGitUpdate]
      split <;> simp
  | cloneComplete idx =>
      have hn : s.repos[idx]? = none := List.getElem?_eq_none h
      simp [handleGitUpdate, hn]
  | deleteProgress idx =>
      simp only [handleGitUpdate]
      split <;> simp
  | deleteComplete idx url =>
      have hn : s.repos[idx]? = none := List.getElem?_eq_none h
      simp [handleGitUpdate, hn]

/-- C7 witness: a delete-complete for index 5 of a three-record list
leaves the list untouched. -/
theorem c7_witness :
    (handleGitUpdate envAllExists baseState (.deleteComplete 5 none)).1.repos =
      baseState.repos :=
  (c7_stale_index_harmless envAllExists baseState (.deleteComplete 5 none) (by decide)).1

/-- C8: a remote-status (resp. status) message whose index resolves
overwrites exactly that record's remote-status (resp. status) field,
leaves every other record — and every other field of the record —
unchanged, and delivering the same message twice yields the same state as
delivering it once. -/
theorem c8_field_update_frame_idempotent (env : Env) (s : AppState) (idx : Nat) (v : String)
    (h : idx < s.repos.length) :
    ((handleGitUpdate env s (.remoteStatus idx v)).1.repos[idx]? =
        some { s.repos[idx] with remoteStatus? := some v }) ∧
    (∀ j, j ≠ idx →
      (handleGitUpdate env s (.remoteStatus idx v)).1.repos[j]? = s.repos[j]?) ∧
    (handleGitUpdate env (handleGitUpdate env s (.remoteStatus idx v)).1 (.remoteStatus idx v) =
      handleGitUpdate env s (.remoteStatus idx v)) ∧
    ((handleGitUpdate env s (.status idx v)).1.repos[idx]? =
        some { s.repos[idx] with status? := some v }) ∧
    (∀ j, j ≠ idx →
      (handleGitUpdate env s (.status idx v)).1.repos[j]? = s.repos[j]?) ∧
    (handleGitUpdate env (handleGitUpdate env s (.status idx v)).1 (.status idx v) =
      handleGitUpdate env s (.status idx v)) := by
  have hg : s.repos[idx]? = some (s.repos[idx]) := List.getElem?_eq_getElem h
  refine ⟨?_, ?_, ?_, ?_, ?_, ?_⟩
  · simp only [handleGitUpdate, hg]
    rw [List.getElem?_set_self h]
    rfl
  · intro j hj
    simp only [handleGitUpdate, hg]
    exact List.getElem?_set_ne (fun e => hj e.symm)
  · simp only [handleGitUpdate, hg]
    have hg2 : (s.repos.set idx ((s.repos[idx]).set_remote_status v))[idx]? =
        some ((s.repos[idx]).set_remote_status v) := List.getElem?_set_self h
    simp only [hg2, List.set_set]
    rfl
  · simp only [handleGitUpdate, hg]
    rw [List.getElem?_set_self h]
    rfl
  · intro j hj
    simp only [handleGitUpdate, hg]
    exact List.getElem?_set_ne (fun e => hj e.symm)
  · simp only [handleGitUpdate, hg]
    have hg2 : (s.repos.set idx ((s.repos[idx]).set_status v))[idx]? =
        some ((s.repos[idx]).set_status v) := List.getElem?_set_self h
    simp only [hg2, List.set_set]
    rfl

/-- C8 witness: a remote-status message for index 1 of the sample state
updates exactly that record. -/
theorem c8_witness :
    (handleGitUpdate envAllExists baseState (.remoteStatus 1 "up-to-date")).1.repos[1]? =
        some { repoBeta with remoteStatus? := some "up-to-date" } ∧
    (handleGitUpdate envAllExists baseState (.remoteStatus 1 "up-to-date")).1.repos[0]? =
        some repoAlpha := by
  have h := c8_field_update_frame_idempotent envAllExists baseState 1 "up-to-date" (by decide)
  exact ⟨h.1, (h.2.1 0 (by decide)).trans (by decide)⟩

/-- C5 counterexample: in the sample state (record 0 clean and
up-to-date, records 1 and 2 needing attention), pressing `]` moves the
filter to needs-attention and resets the selection to backing index 0 —
but the smallest backing-list index satisfying the active predicates is 1,
so the claim "the selection afterwards is the smallest backing-list index
that satisfies the active filter and search predicates" fails. -/
theorem c5_counterexample :
    (handleKey envAllExists baseState (.char ']') false).1.selection = some 0 ∧
    (filtered_repos (handleKey envAllExists baseState (.char ']') false).1).head? = some 1 := by
  decide

/-- C5 (amended): every filter-cycle key press and every search-query
edit resets the selection to backing-list index 0 — the first item of the
*unfiltered* backing list, irrespective of the filter and search
predicates — while cycling the filter mode / editing the query. -/
theorem c5_selection_reset (env : Env) (s : AppState) (c : Char) (ctrl : Bool) :
    (s.searchMode = false →
      (handleKey env s (.char '[') ctrl).1 =
        { s with filterMode := s.filterMode.previous, selection := some 0 } ∧
      (handleKey env s (.char ']') ctrl).1 =
        { s with filterMode := s.filterMode.next, selection := some 0 }) ∧
    (s.searchMode = true →
      (handleKey env s (.char c) ctrl).1 =
        { s with searchQuery := s.searchQuery.push c, selection := some 0 } ∧
      (handleKey env s .backspace ctrl).1 =
        { s with searchQuery := strPop s.searchQuery, selection := some 0 }) := by
  constructor
  · intro hn
    constructor
    · unfold handleKey
      rw [hn]
      rfl
    · unfold handleKey
      rw [hn]
      rfl
  · intro hs
    constructor
    · unfold handleKey
      rw [hs]
      rfl
    · unfold handleKey
      rw [hs]
      rfl

/-- C5 witness: the amended theorem at the sample state (normal mode) and
at a search-mode state. -/
theorem c5_witness :
    (handleKey envAllExists baseState (.char ']') false).1.selection = some 0 ∧
    (handleKey envAllExists { baseState with searchMode := true } .backspace false).1.selection
      = some 0 := by
  have h1 := (c5_selection_reset envAllExists baseState 'x' false).1 rfl
  have h2 :=
    (c5_selection_reset envAllExists { baseState with searchMode := true } 'x' false).2 rfl
  refine ⟨?_, ?_⟩
  · rw [h1.2]
  · rw [h2.2]

/-- C6 counterexample: dropping the selected missing record `delta` while
its relative path `["delta"]` is not present in the (empty) cache file
is not a no-op — the in-memory list shrinks from one record to zero. -/
theorem c6_counterexample :
    repoDelta.missing = true ∧
    (∀ e ∈ envAllExists.cache, e.1 ≠ (["delta"] : Path)) ∧
    dropStateC6.repos.length = 1 ∧
    (handle_drop_repo envAllExists dropStateC6).1.repos.length = 0 := by
  decide

/-- C6 (amended): dropping a selected missing record whose path lies
under the known root removes it from the in-memory list (the list shrinks
by one) regardless of whether its relative path occurs in the persisted
cache; the cache is rewritten with any matching entry filtered out (and
is unchanged in content when the path was absent).  The action is a no-op
only when no root is known or the record's path is not under the root. -/
theorem c6_drop_missing (env : Env) (s : AppState) (selected : Nat) (repo : GitRepo)
    (hsel : s.selection = some selected) (hrepo : s.repos[selected]? = some repo)
    (hmiss : repo.missing = true) :
    (∀ root, s.rootPath = some root → root.isPrefixOf repo.path = true →
      handle_drop_repo env s =
        ({ s with
            repos := s.repos.eraseIdx selected
            selection :=
              if !(s.repos.eraseIdx selected).isEmpty then
                some (if selected ≥ (s.repos.eraseIdx selected).length then
                        (s.repos.eraseIdx selected).length - 1
                      else selected)
              else none },
          some (remove_from_cache (repo.path.drop root.length) env.cache), []) ∧
      (s.repos.eraseIdx selected).length = s.repos.length - 1) ∧
    (s.rootPath = none → handle_drop_repo env s = (s, none, [])) ∧
    (∀ root, s.rootPath = some root → root.isPrefixOf repo.path = false →
      handle_drop_repo env s = (s, none, [])) := by
  have hlt : selected < s.repos.length := by
    by_contra hge
    rw [List.getElem?_eq_none (Nat.le_of_not_lt hge)] at hrepo
    exact Option.noConfusion hrepo
  refine ⟨?_, ?_, ?_⟩
  · intro root hroot hpre
    refine ⟨?_, List.length_eraseIdx_of_lt hlt⟩
    unfold handle_drop_repo
    rw [hsel]
    simp only [hrepo, hmiss, if_true, hroot, hpre]
  · intro hroot
    unfold handle_drop_repo
    rw [hsel]
    simp only [hrepo, hmiss, if_true, hroot]
  · intro root hroot hpre
    unfold handle_drop_repo
    rw [hsel]
    simp only [hrepo, hmiss, if_true, hroot, hpre]
    rfl

/-- C6 witness: the amended theorem at the concrete drop state. -/
theorem c6_witness :
    handle_drop_repo envAllExists dropStateC6 =
      ({ dropStateC6 with repos := [], selection := none }, some [], []) := by
  have h := (c6_drop_missing envAllExists dropStateC6 0 repoDelta rfl rfl rfl).1
    ["home"] rfl rfl
  rw [h.1]
  rfl

/-- C3 counterexample: in the startup unit's trace the first remote-status
emission is at position 2, strictly after the status probe at position 1 —
the unit waits for both probes before emitting either message, refuting
"emits each message as soon as the corresponding probe result is
available, without waiting for both probes to finish". -/
theorem c3_counterexample :
    ¬ EmitsRemoteStatusWithoutWaiting (startupUnit true 0 ["home", "alpha"] probesOk) := by
  rintro ⟨i, j, hi, hj, hlt⟩
  have h1 : (startupUnit true 0 ["home", "alpha"] probesOk).findIdx? isSendRemoteStatus =
      some 2 := by decide
  have h2 : (startupUnit true 0 ["home", "alpha"] probesOk).findIdx? isProbeStatus =
      some 1 := by decide
  rw [h1] at hi
  rw [h2] at hj
  cases hi
  cases hj
  omega

/-- C3 (amended): the startup unit probes remote status, then probes the
working-tree status, and only then emits the remote-status and status
messages (both emissions wait for both probes); it enters the fetch phase
(fetch-progress, fetch call, re-read, updated remote-status,
fetch-complete) if and only if fetch-on-start is enabled and the first
remote-status result is neither `local-only` nor the `error` sentinel. -/
theorem c3_startup_unit (fetchRepos : Bool) (idx : Nat) (path : Path) (p : UnitProbes) :
    ((startupUnit fetchRepos idx path p).take 4 =
      [.probeRemoteStatus path, .probeStatus path,
       .send (.remoteStatus idx p.remoteStatus1), .send (.status idx p.status1)]) ∧
    ((∃ a ∈ startupUnit fetchRepos idx path p, isFetchProgressSend a = true) ↔
      (fetchRepos = true ∧ p.remoteStatus1 ≠ "local-only" ∧ p.remoteStatus1 ≠ "error")) ∧
    ((fetchRepos = true ∧ p.remoteStatus1 ≠ "local-only" ∧ p.remoteStatus1 ≠ "error") →
      (startupUnit fetchRepos idx path p).drop 4 =
        [.send (.fetchProgress idx), .fetchCall path, .probeRemoteStatus path,
         .send (.remoteStatus idx p.remoteStatus2), .send (.fetchComplete idx)]) ∧
    (¬ (fetchRepos = true ∧ p.remoteStatus1 ≠ "local-only" ∧ p.remoteStatus1 ≠ "error") →
      (startupUnit fetchRepos idx path p).drop 4 = []) := by
  have hcond : (fetchRepos && p.remoteStatus1 != "local-only" && p.remoteStatus1 != "error")
      = true ↔
      (fetchRepos = true ∧ p.remoteStatus1 ≠ "local-only" ∧ p.remoteStatus1 ≠ "error") := by
    simp [Bool.and_eq_true, bne_iff_ne, and_assoc]
  by_cases h : fetchRepos = true ∧ p.remoteStatus1 ≠ "local-only" ∧ p.remoteStatus1 ≠ "error"
  · have hb : (fetchRepos && p.remoteStatus1 != "local-only" && p.remoteStatus1 != "error")
        = true := hcond.mpr h
    refine ⟨?_, ?_, ?_, ?_⟩
    · unfold startupUnit
      rw [hb]
      rfl
    · constructor
      · intro _; exact h
      · intro _
        refine ⟨.send (.fetchProgress idx), ?_, rfl⟩
        unfold startupUnit
        rw [hb]
        simp [spawnBlockingJoin]
    · intro _
      unfold startupUnit
      rw [hb]
      rfl
    · intro hc
      exact absurd h hc
  · have hb : (fetchRepos && p.remoteStatus1 != "local-only" && p.remoteStatus1 != "error")
        = false := by
      rcases Bool.eq_false_or_eq_true
        (fetchRepos && p.remoteStatus1 != "local-only" && p.remoteStatus1 != "error") with
        hf | ht
      · exact absurd (hcond.mp hf) h
      · exact ht
    refine ⟨?_, ?_, ?_, ?_⟩
    · unfold startupUnit
      rw [hb]
      rfl
    · constructor
      · rintro ⟨a, ha, hfa⟩
        exfalso
        unfold startupUnit at ha
        rw [hb] at ha
        simp at ha
        rcases ha with ha | ha | ha | ha <;> subst ha <;> simp [isFetchProgressSend] at hfa
      · intro hc
        exact absurd hc h
    · intro hc
      exact absurd hc h
    · intro _
      unfold startupUnit
      rw [hb]
      rfl

/-- C3 witness: the amended theorem at concrete inputs, for a unit that
enters the fetch phase. -/
theorem c3_witness :
    (startupUnit true 0 ["home", "alpha"] probesOk).drop 4 =
      [.send (.fetchProgress 0), .fetchCall ["home", "alpha"],
       .probeRemoteStatus ["home", "alpha"], .send (.remoteStatus 0 "up-to-date"),
       .send (.fetchComplete 0)] :=
  (c3_startup_unit true 0 ["home", "alpha"] probesOk).2.2.1 (by decide)

/-- C4 counterexample: a startup unit whose fetch call fails still
re-reads the remote status and emits an updated remote-status message
(position 7 of the trace), contrary to the claim that no updated
remote-status message is emitted on fetch error; fetch-complete follows
at position 8.  The `is_ok()` test in the source inspects the
`spawn_blocking` join result, not the inner fetch result. -/
theorem c4_counterexample :
    probesFetchErr.fetchResult = .error "network unreachable" ∧
    startupUnit true 0 ["home", "alpha"] probesFetchErr =
      [.probeRemoteStatus ["home", "alpha"], .probeStatus ["home", "alpha"],
       .send (.remoteStatus 0 "up-to-date"), .send (.status 0 "clean"),
       .send (.fetchProgress 0), .fetchCall ["home", "alpha"],
       .probeRemoteStatus ["home", "alpha"], .send (.remoteStatus 0 "↑0 ↓1"),
       .send (.fetchComplete 0)] :=
  ⟨rfl, by decide⟩

/-- C4 (amended): when a startup unit enters the fetch phase and the
fetch call itself returns an error, the unit still emits fetch-complete,
but it also re-reads the remote status and emits an updated remote-status
message — the success check inspects only the task-join result, which
always succeeds for a closure returning `Result`, so status text can still
change after a failed fetch. -/
theorem c4_fetch_error_trace (fetchRepos : Bool) (idx : Nat) (path : Path) (p : UnitProbes)
    (hentry : fetchRepos = true ∧ p.remoteStatus1 ≠ "local-only" ∧ p.remoteStatus1 ≠ "error")
    (herr : ∃ e, p.fetchResult = .error e) :
    startupUnit fetchRepos idx path p =
      [.probeRemoteStatus path, .probeStatus path,
       .send (.remoteStatus idx p.remoteStatus1), .send (.status idx p.status1),
       .send (.fetchProgress idx), .fetchCall path,
       .probeRemoteStatus path, .send (.remoteStatus idx p.remoteStatus2),
       .send (.fetchComplete idx)] := by
  have hb : (fetchRepos && p.remoteStatus1 != "local-only" && p.remoteStatus1 != "error")
      = true := by
    simp only [Bool.and_eq_true, bne_iff_ne]
    exact ⟨⟨hentry.1, hentry.2.1⟩, hentry.2.2⟩
  unfold startupUnit
  rw [hb]
  rfl

/-- C4 witness: the amended theorem at the failing-fetch probe results. -/
theorem c4_witness :
    startupUnit true 1 ["home", "beta"] probesFetchErr =
      [.probeRemoteStatus ["home", "beta"], .probeStatus ["home", "beta"],
       .send (.remoteStatus 1 "up-to-date"), .send (.status 1 "clean"),
       .send (.fetchProgress 1), .fetchCall ["home", "beta"],
       .probeRemoteStatus ["home", "beta"], .send (.remoteStatus 1 "↑0 ↓1"),
       .send (.fetchComplete 1)] :=
  c4_fetch_error_trace true 1 ["home", "beta"] probesFetchErr (by decide)
    ⟨"network unreachable", rfl⟩

/-- C2: on clone-complete the controller removes the carried index from
the cloning set; then, only if the record's directory exists on disk, it
replaces that slot with a freshly constructed present record (branch
re-derived, status fields reset to the unloaded sentinel), re-sorts the
backing list, re-resolves the record's new index by path equality rather
than the old index, moves the selection to that new index, and schedules
a probe unit tagged with the new index; if the directory does not exist
the record stays missing (the list is unchanged) and no probe unit is
scheduled. -/
theorem c2_clone_complete (env : Env) (s : AppState) (idx : Nat)
    (h : idx < s.repos.length) :
    ((handleGitUpdate env s (.cloneComplete idx)).1.cloningRepos =
      s.cloningRepos.filter (fun i => i ≠ idx)) ∧
    (env.exists_ (s.repos[idx]).path = true →
      GitRepo.new env (s.repos[idx]).path =
        { path := (s.repos[idx]).path, branch := env.branchOf (s.repos[idx]).path,
          remoteStatus? := none, status? := none, missing := false, remoteUrl := none } ∧
      (handleGitUpdate env s (.cloneComplete idx)).1.repos =
        sortRepos (s.repos.set idx (GitRepo.new env (s.repos[idx]).path)) ∧
      ∃ newIdx,
        (handleGitUpdate env s (.cloneComplete idx)).1.repos.findIdx?
          (fun r => r.path = (s.repos[idx]).path) = some newIdx ∧
        (handleGitUpdate env s (.cloneComplete idx)).1.selection = some newIdx ∧
        (handleGitUpdate env s (.cloneComplete idx)).2 =
          [Spawn.probe newIdx (s.repos[idx]).path] ∧
        ∃ r, (handleGitUpdate env s (.cloneComplete idx)).1.repos[newIdx]? = some r ∧
          r.path = (s.repos[idx]).path) ∧
    (env.exists_ (s.repos[idx]).path = false →
      (handleGitUpdate env s (.cloneComplete idx)).1.repos = s.repos ∧
      (handleGitUpdate env s (.cloneComplete idx)).1.selection = s.selection ∧
      (handleGitUpdate env s (.cloneComplete idx)).2 = []) := by
  have hg : s.repos[idx]? = some (s.repos[idx]) := List.getElem?_eq_getElem h
  by_cases hex : env.exists_ (s.repos[idx]).path = true
  · obtain ⟨newIdx, hj, r, hr, hp⟩ :=
      sortRepos_findIdx_path
        (l := s.repos.set idx (GitRepo.new env (s.repos[idx]).path))
        (p := (s.repos[idx]).path)
        ⟨GitRepo.new env (s.repos[idx]).path, mem_set_self h _, rfl⟩
    have hred := handleGitUpdate_cloneComplete_exists hg hex hj
    refine ⟨by rw [hred], fun _ => ?_, fun hfalse => ?_⟩
    · refine ⟨rfl, by rw [hred], newIdx, ?_, by rw [hred], by rw [hred], r, ?_, hp⟩
      · rw [hred]
        exact hj
      · rw [hred]
        exact hr
    · rw [hex] at hfalse
      exact Bool.noConfusion hfalse
  · have hexf : env.exists_ (s.repos[idx]).path = false := by
      simpa using hex
    have hred := handleGitUpdate_cloneComplete_noDir hg hexf
    refine ⟨by rw [hred], fun htrue => ?_, fun _ => ?_⟩
    · rw [hexf] at htrue
      exact Bool.noConfusion htrue
    · exact ⟨by rw [hred], by rw [hred], by rw [hred]⟩

/-- C2 witness: the clone of the missing `delta` record in the sample
clone state completes with an existing directory; the cloning set empties,
the selection moves to the re-resolved index 1, and a probe for that
index is scheduled. -/
theorem c2_witness :
    (handleGitUpdate envAllExists cloneState (.cloneComplete 1)).1.cloningRepos = [] ∧
    (handleGitUpdate envAllExists cloneState (.cloneComplete 1)).1.selection = some 1 ∧
    (handleGitUpdate envAllExists cloneState (.cloneComplete 1)).2 =
      [Spawn.probe 1 ["home", "delta"]] := by
  have hh := c2_clone_complete envAllExists cloneState 1 (by decide)
  obtain ⟨hclon, hex, -⟩ := hh
  obtain ⟨-, -, newIdx, hfind, hsel, hspawn, -⟩ := hex rfl
  have hfind1 : (handleGitUpdate envAllExists cloneState (.cloneComplete 1)).1.repos.findIdx?
      (fun r => r.path = (cloneState.repos[1]).path) = some 1 := by decide
  rw [hfind1] at hfind
  cases hfind
  refine ⟨?_, hsel, hspawn⟩
  rw [hclon]
  decide

/-- C1 counterexample: with the selection resting on `gamma` (index 2)
while `alpha` (index 0) is deleted, the delete-complete transition moves
the selection to the deleted record `alpha` (re-sorted to index 2), not to
the record the selection pointed at before — path identity is preserved
for the *deleted* record, not the selected one. -/
theorem c1_counterexample :
    delStateC1.selection = some 2 ∧
    delStateC1.repos[2]?.map GitRepo.path = some (["home", "gamma"] : Path) ∧
    (handleGitUpdate envAllExists delStateC1 (.deleteComplete 0 (some "u"))).1.selection =
      some 2 ∧
    (handleGitUpdate envAllExists delStateC1
        (.deleteComplete 0 (some "u"))).1.repos[2]?.map GitRepo.path =
      some (["home", "alpha"] : Path) := by
  decide

/-- C1 (amended): after a delete-complete whose index resolves, or a
clone-complete whose index resolves and whose directory exists, the
backing list is sorted with every non-missing record before every missing
record and each group in case-insensitive display-name order, and the
selection resolves by path identity to the *affected* (deleted/cloned)
record — not necessarily to the record selected before the transition;
after a clone-complete whose directory is absent, list and selection are
unchanged. -/
theorem c1_resort_reselect (env : Env) (s : AppState) (idx : Nat) (url : Option String)
    (h : idx < s.repos.length) :
    (SortedSpec (handleGitUpdate env s (.deleteComplete idx url)).1.repos ∧
      ∃ j r, (handleGitUpdate env s (.deleteComplete idx url)).1.selection = some j ∧
        (handleGitUpdate env s (.deleteComplete idx url)).1.repos[j]? = some r ∧
        r.path = (s.repos[idx]).path) ∧
    (env.exists_ (s.repos[idx]).path = true →
      SortedSpec (handleGitUpdate env s (.cloneComplete idx)).1.repos ∧
      ∃ j r, (handleGitUpdate env s (.cloneComplete idx)).1.selection = some j ∧
        (handleGitUpdate env s (.cloneComplete idx)).1.repos[j]? = some r ∧
        r.path = (s.repos[idx]).path) ∧
    (env.exists_ (s.repos[idx]).path = false →
      (handleGitUpdate env s (.cloneComplete idx)).1.repos = s.repos ∧
      (handleGitUpdate env s (.cloneComplete idx)).1.selection = s.selection) := by
  have hg : s.repos[idx]? = some (s.repos[idx]) := List.getElem?_eq_getElem h
  refine ⟨?_, ?_, ?_⟩
  · obtain ⟨newIdx, hj, r, hr, hp⟩ :=
      sortRepos_findIdx_path
        (l := s.repos.set idx ((s.repos[idx]).set_missing url))
        (p := (s.repos[idx]).path)
        ⟨(s.repos[idx]).set_missing url, mem_set_self h _, rfl⟩
    have hred := @handleGitUpdate_deleteComplete_eq env s idx url _ hg _ hj
    refine ⟨?_, newIdx, r, by rw [hred], ?_, hp⟩
    · rw [hred]
      exact sortRepos_sortedSpec _
    · rw [hred]
      exact hr
  · intro hex
    obtain ⟨newIdx, hj, r, hr, hp⟩ :=
      sortRepos_findIdx_path
        (l := s.repos.set idx (GitRepo.new env (s.repos[idx]).path))
        (p := (s.repos[idx]).path)
        ⟨GitRepo.new env (s.repos[idx]).path, mem_set_self h _, rfl⟩
    have hred := handleGitUpdate_cloneComplete_exists hg hex hj
    refine ⟨?_, newIdx, r, by rw [hred], ?_, hp⟩
    · rw [hred]
      exact sortRepos_sortedSpec _
    · rw [hred]
      exact hr
  · intro hexf
    have hred := handleGitUpdate_cloneComplete_noDir hg hexf
    exact ⟨by rw [hred], by rw [hred]⟩

/-- C1 witness: the amended theorem at the concrete delete state. -/
theorem c1_witness :
    SortedSpec (handleGitUpdate envAllExists delStateC1
      (.deleteComplete 0 (some "u"))).1.repos ∧
    ∃ j r,
      (handleGitUpdate envAllExists delStateC1 (.deleteComplete 0 (some "u"))).1.selection =
        some j ∧
      (handleGitUpdate envAllExists delStateC1
          (.deleteComplete 0 (some "u"))).1.repos[j]? = some r ∧
      r.path = (["home", "alpha"] : Path) := by
  have hh := (c1_resort_reselect envAllExists delStateC1 0 (some "u") (by decide)).1
  exact ⟨hh.1, hh.2⟩

end GitRepos
